import Mathlib

/-
Verification of the core parsing and dispatch logic of a small interactive
shell (single Rust source file, `src/main.rs`).  Strings are modelled as
`List Char`; each Lean definition is a direct transcription of the
corresponding Rust function, with the same control flow and the same
update order.  Scanners that consume a data-dependent number of characters
per iteration take an explicit fuel argument; each iteration consumes at
least one character, so fuel equal to the input length is always enough
(a fuel-irrelevance lemma is proved below).
-/

/-- Convenience: the character list of a string literal. -/
def str (s : String) : List Char := s.data

/-- The single-quote character (code point 39). -/
def squote : Char := Char.ofNat 39

/-- Whitespace test modelling Rust `char::is_whitespace` restricted to the
ASCII whitespace characters that can actually appear in the inputs the
claims are about. -/
def isWS (c : Char) : Bool := c = ' ' || c = '\t' || c = '\n' || c = '\r'

/-- Drop leading whitespace (Rust `str::trim_start`). -/
def trimLeft (cs : List Char) : List Char := cs.dropWhile isWS

/-- Drop trailing whitespace (Rust `str::trim_end`). -/
def trimRight (cs : List Char) : List Char := (cs.reverse.dropWhile isWS).reverse

/-- Drop leading and trailing whitespace (Rust `str::trim`). -/
def trimChars (cs : List Char) : List Char := trimRight (trimLeft cs)

/-- Accumulator loop for `splitWS` (Rust `str::split_whitespace`). -/
def splitWSLoop : List Char → List (List Char) → List Char → List (List Char)
  | [], acc, cur => if cur = [] then acc else acc ++ [cur]
  | c :: cs, acc, cur =>
    if isWS c then
      if cur = [] then splitWSLoop cs acc []
      else splitWSLoop cs (acc ++ [cur]) []
    else splitWSLoop cs acc (cur ++ [c])

/-- Split on runs of whitespace, discarding empty words
(Rust `str::split_whitespace`). -/
def splitWS (cs : List Char) : List (List Char) := splitWSLoop cs [] []

/-- Join words with a single space (Rust `[String]::join(" ")`). -/
def joinSpace : List (List Char) → List Char
  | [] => []
  | [a] => a
  | a :: b :: rest => a ++ ' ' :: joinSpace (b :: rest)

/--
Lexer loop, transcribed from the body of `parse_args` in `src/main.rs`
(lines 831–897).  State: accumulated tokens `args`, current token `cur`,
single-quote flag `inS`, double-quote flag `inD`, and the one-character
escape flag `esc` (set only outside quotes).
-/
def parseArgsLoop : List Char → List (List Char) → List Char → Bool → Bool → Bool → List (List Char)
  | [], args, cur, _, _, _ =>
    if cur = [] then args else args ++ [cur]
  | c :: cs, args, cur, inS, inD, esc =>
    if esc then parseArgsLoop cs args (cur ++ [c]) inS inD false
    else if c = '\\' ∧ inD then
      match cs with
      | [] => parseArgsLoop [] args (cur ++ ['\\']) inS inD false
      | n :: rest =>
        if n = '"' ∨ n = '\\' then parseArgsLoop rest args (cur ++ [n]) inS inD false
        else parseArgsLoop (n :: rest) args (cur ++ ['\\']) inS inD false
    else if c = '\\' ∧ ¬inS ∧ ¬inD then parseArgsLoop cs args cur inS inD true
    else if c = squote ∧ ¬inD then parseArgsLoop cs args cur (!inS) inD false
    else if c = '"' ∧ ¬inS then parseArgsLoop cs args cur inS (!inD) false
    else if c = ' ' ∧ ¬inS ∧ ¬inD then
      if cur = [] then parseArgsLoop cs args [] inS inD false
      else parseArgsLoop cs (args ++ [cur]) [] inS inD false
    else parseArgsLoop cs args (cur ++ [c]) inS inD false

/-- The Lexer: `parse_args` from `src/main.rs`, producing the token list of
a stage string. -/
def parse_args (input : List Char) : List (List Char) :=
  parseArgsLoop input [] [] false false false

/-- Per-stage redirection set, transcribed from the Rust struct
`Redirection` in `src/main.rs` (lines 98–108). -/
structure Redirection where
  stdout_file : Option (List Char)
  stdout_append : Bool
  stderr_file : Option (List Char)
  stderr_append : Bool
deriving DecidableEq, Repr

/-- Accumulator loop of `parse_filename` (`src/main.rs` lines 780–803):
read characters until a space, a `>`, or a `1`/`2` immediately followed by
`>`; return the accumulated filename and the unconsumed rest. -/
def parseFilenameLoop : List Char → List Char → List Char × List Char
  | [], acc => (acc, [])
  | c :: cs, acc =>
    if c = ' ' ∨ c = '>' then (acc, c :: cs)
    else if (c = '1' ∨ c = '2') ∧ cs.head? = some '>' then (acc, c :: cs)
    else parseFilenameLoop cs (acc ++ [c])

/-- The filename reader `parse_filename` from `src/main.rs`: reads up to a
stop character and trims the result (Rust `filename.trim().to_string()`).
Returns the filename together with the rest of the input, modelling the
shared mutable iterator. -/
def parse_filename (cs : List Char) : List Char × List Char :=
  ((parseFilenameLoop cs []).1 |> trimChars, (parseFilenameLoop cs []).2)

/-- Specification of what `parse_filename` accumulates: the prefix of the
input up to (excluding) the first space, the first `>`, or the first
`1`/`2` immediately followed by `>` — with no quote tracking. -/
def fnamePrefix : List Char → List Char
  | [] => []
  | c :: cs =>
    if c = ' ' ∨ c = '>' ∨ ((c = '1' ∨ c = '2') ∧ cs.head? = some '>') then []
    else c :: fnamePrefix cs

/-- Specification of what `parse_filename` leaves unconsumed: the input
from the first stop character on. -/
def fnameRest : List Char → List Char
  | [] => []
  | c :: cs =>
    if c = ' ' ∨ c = '>' ∨ ((c = '1' ∨ c = '2') ∧ cs.head? = some '>') then c :: cs
    else fnameRest cs

/-- Append-mode check after an already-consumed `>` (Rust: peek for a
second `>` and consume it).  Returns the append flag and the rest. -/
def appendCheck (cs : List Char) : Bool × List Char :=
  if cs.head? = some '>' then (true, cs.tail) else (false, cs)

/-- After the append-mode check, skip spaces and read the filename
(Rust: the `while chars.peek() == Some(&' ')` loop followed by
`parse_filename`). -/
def opTail (cs : List Char) : List Char × List Char :=
  parse_filename ((appendCheck cs).2.dropWhile (fun c => c = ' '))

/--
Scanner loop of `parse_redirection` (`src/main.rs` lines 634–777),
transcribed branch by branch.  `fuel` bounds the number of iterations;
every iteration consumes at least one character, so fuel equal to the
input length is sufficient (see `parseRedirLoopF_fuel`).  The slot record
`σ` plays the role of the four mutable variables `stdout_file`,
`stdout_append`, `stderr_file`, `stderr_append`.
-/
def parseRedirLoopF : Nat → List Char → List Char → Bool → Bool → Bool → Redirection → List Char × Redirection
  | _, [], cmd, _, _, _, σ => (cmd, σ)
  | 0, c :: cs, cmd, _, _, _, σ => (cmd ++ c :: cs, σ)
  | fuel + 1, c :: cs, cmd, inS, inD, esc, σ =>
    if esc then parseRedirLoopF fuel cs (cmd ++ [c]) inS inD false σ
    else if c = '\\' ∧ ¬inS then parseRedirLoopF fuel cs (cmd ++ [c]) inS inD true σ
    else if c = squote ∧ ¬inD then parseRedirLoopF fuel cs (cmd ++ [c]) (!inS) inD false σ
    else if c = '"' ∧ ¬inS then parseRedirLoopF fuel cs (cmd ++ [c]) inS (!inD) false σ
    else if c = '>' ∧ ¬inS ∧ ¬inD then
      if (opTail cs).1 = [] then parseRedirLoopF fuel (opTail cs).2 cmd inS inD false σ
      else parseRedirLoopF fuel (opTail cs).2 cmd inS inD false
        ⟨some (opTail cs).1, (appendCheck cs).1, σ.stderr_file, σ.stderr_append⟩
    else if c = '1' ∧ ¬inS ∧ ¬inD ∧ cs.head? = some '>' then
      if (opTail cs.tail).1 = [] then parseRedirLoopF fuel (opTail cs.tail).2 cmd inS inD false σ
      else parseRedirLoopF fuel (opTail cs.tail).2 cmd inS inD false
        ⟨some (opTail cs.tail).1, (appendCheck cs.tail).1, σ.stderr_file, σ.stderr_append⟩
    else if c = '2' ∧ ¬inS ∧ ¬inD ∧ cs.head? = some '>' then
      if (opTail cs.tail).1 = [] then parseRedirLoopF fuel (opTail cs.tail).2 cmd inS inD false σ
      else parseRedirLoopF fuel (opTail cs.tail).2 cmd inS inD false
        ⟨σ.stdout_file, σ.stdout_append, some (opTail cs.tail).1, (appendCheck cs.tail).1⟩
    else parseRedirLoopF fuel cs (cmd ++ [c]) inS inD false σ

/-- The Redirection Parser `parse_redirection` from `src/main.rs`: returns
the residual command string (with trailing whitespace removed) and the
redirection set, which is `none` when no slot was filled. -/
def parse_redirection (input : List Char) : List Char × Option Redirection :=
  let r := parseRedirLoopF input.length input [] false false false ⟨none, false, none, false⟩
  (trimRight r.1,
    if r.2.stdout_file.isSome ∨ r.2.stderr_file.isSome then some r.2 else none)

/-- One redirection operator occurrence: target fd (`fd2 = true` means
fd 2), append flag, and the (possibly empty, already trimmed) filename
that followed it. -/
structure RedirOp where
  fd2 : Bool
  app : Bool
  file : List Char
deriving DecidableEq, Repr

/-- Specification-side scanner: the sequence of redirection operator
occurrences in a stage string, in source order, computed with exactly the
same quote/escape tracking and consumption as `parseRedirLoopF`. -/
def redirOpsF : Nat → List Char → Bool → Bool → Bool → List RedirOp
  | _, [], _, _, _ => []
  | 0, _ :: _, _, _, _ => []
  | fuel + 1, c :: cs, inS, inD, esc =>
    if esc then redirOpsF fuel cs inS inD false
    else if c = '\\' ∧ ¬inS then redirOpsF fuel cs inS inD true
    else if c = squote ∧ ¬inD then redirOpsF fuel cs (!inS) inD false
    else if c = '"' ∧ ¬inS then redirOpsF fuel cs inS (!inD) false
    else if c = '>' ∧ ¬inS ∧ ¬inD then
      ⟨false, (appendCheck cs).1, (opTail cs).1⟩ :: redirOpsF fuel (opTail cs).2 inS inD false
    else if c = '1' ∧ ¬inS ∧ ¬inD ∧ cs.head? = some '>' then
      ⟨false, (appendCheck cs.tail).1, (opTail cs.tail).1⟩ :: redirOpsF fuel (opTail cs.tail).2 inS inD false
    else if c = '2' ∧ ¬inS ∧ ¬inD ∧ cs.head? = some '>' then
      ⟨true, (appendCheck cs.tail).1, (opTail cs.tail).1⟩ :: redirOpsF fuel (opTail cs.tail).2 inS inD false
    else redirOpsF fuel cs inS inD false

/-- Redirection operator occurrences of a stage string. -/
def redirOps (input : List Char) : List RedirOp :=
  redirOpsF input.length input false false false

/-- Effect of one operator occurrence on the slots, exactly as the source
performs it: an empty filename leaves everything unchanged; otherwise the
slot and append flag of the targeted fd are overwritten. -/
def stepOp (σ : Redirection) (o : RedirOp) : Redirection :=
  if o.file = [] then σ
  else if o.fd2 then ⟨σ.stdout_file, σ.stdout_append, some o.file, o.app⟩
  else ⟨some o.file, o.app, σ.stderr_file, σ.stderr_append⟩

/-- Apply a sequence of operator occurrences to a slot record, left to
right. -/
def applyOps (σ : Redirection) (ops : List RedirOp) : Redirection :=
  ops.foldl stepOp σ

/-- Slot contents dictated by the last operator for a given fd that has a
nonempty filename; `(none, false)` when there is no such operator. -/
def lastWins (fd2 : Bool) (ops : List RedirOp) : Option (List Char) × Bool :=
  match (ops.filter (fun o => o.fd2 = fd2 ∧ o.file ≠ [])).getLast? with
  | some o => (some o.file, o.app)
  | none => (none, false)

/-- Loop of `parse_pipeline` (`src/main.rs` lines 579–631): split the raw
line on unquoted, unescaped `|`; stages are trimmed and empty stages are
dropped. -/
def parsePipelineLoop : List Char → List (List Char) → List Char → Bool → Bool → Bool → List (List Char)
  | [], cmds, cur, _, _, _ =>
    if trimChars cur = [] then cmds else cmds ++ [trimChars cur]
  | c :: cs, cmds, cur, inS, inD, esc =>
    if esc then parsePipelineLoop cs cmds (cur ++ [c]) inS inD false
    else if c = '\\' ∧ ¬inS then parsePipelineLoop cs cmds (cur ++ [c]) inS inD true
    else if c = squote ∧ ¬inD then parsePipelineLoop cs cmds (cur ++ [c]) (!inS) inD false
    else if c = '"' ∧ ¬inS then parsePipelineLoop cs cmds (cur ++ [c]) inS (!inD) false
    else if c = '|' ∧ ¬inS ∧ ¬inD then
      if trimChars cur = [] then parsePipelineLoop cs cmds cur inS inD false
      else parsePipelineLoop cs (cmds ++ [trimChars cur]) [] inS inD false
    else parsePipelineLoop cs cmds (cur ++ [c]) inS inD false

/-- The Pipeline Splitter `parse_pipeline` from `src/main.rs`: a line with
no unquoted `|` (or only empty stages) yields the single original input. -/
def parse_pipeline (input : List Char) : List (List Char) :=
  let r := parsePipelineLoop input [] [] false false false
  if r = [] then [input] else r

/-- The command enum `CommandAction` from `src/main.rs` (lines 111–132).
The Rust variant `External` is named `ExtCmd` here; it carries the bare
command string and the argument list, exactly as the source does. -/
inductive CommandAction
  | Exit
  | Echo (args : List (List Char))
  | TypeCmd (args : List (List Char))
  | Pwd
  | Ai (args : List (List Char))
  | ExtCmd (cmd : List Char) (args : List (List Char))
  | Unknown (cmd : List Char)
  | Cd (args : List (List Char))
  | Pipeline (cmds : List (List Char × List (List Char)))
  | History (limit : Option Nat)
  | HistoryRead (path : List Char)
  | HistoryWrite (path : List Char)
  | HistoryAppend (path : List Char)
deriving DecidableEq, Repr

/-- The Path Cache, modelling the `HashMap<String, PathBuf>` of
`src/main.rs` as an association list from basename to path. -/
def PathCache := List (List Char × List Char)

/-- Membership test, modelling `HashMap::contains_key`. -/
def containsKey (m : List (List Char × List Char)) (k : List Char) : Bool :=
  m.any (fun p => p.1 = k)

/-- Lookup, modelling `HashMap` indexing. -/
def lookupKey (m : List (List Char × List Char)) (k : List Char) : Option (List Char) :=
  (m.find? (fun p => p.1 = k)).map (fun p => p.2)

/-- Rust `s.parse::<usize>().ok()`: an optional leading `+`, then one or
more ASCII digits.  (Machine-width overflow is not modelled; no claim
depends on it.) -/
def parseUsize (s : List Char) : Option Nat :=
  let digits := match s with
    | '+' :: r => r
    | _ => s
  if digits ≠ [] ∧ digits.all (fun c => c.isDigit) then
    some (digits.foldl (fun n c => n * 10 + (c.toNat - 48)) 0)
  else none

/-- The command-name dispatch of `parse_command` (`src/main.rs` lines
528–573): the `match command.as_str()` over the first token, with the
Path Cache membership check in the fallback arm. -/
def dispatch (cmd : List Char) (args : List (List Char)) (cache : List (List Char × List Char)) :
    CommandAction :=
  if cmd = str "exit" then CommandAction.Exit
  else if cmd = str "echo" then CommandAction.Echo args
  else if cmd = str "pwd" then CommandAction.Pwd
  else if cmd = str "type" then CommandAction.TypeCmd args
  else if cmd = str "cd" then CommandAction.Cd args
  else if cmd = str "history" then
    if args.head? = some (str "-r") then
      match args.get? 1 with
      | some p => CommandAction.HistoryRead p
      | none => CommandAction.Unknown (str "history")
    else if args.head? = some (str "-w") then
      match args.get? 1 with
      | some p => CommandAction.HistoryWrite p
      | none => CommandAction.Unknown (str "history")
    else if args.head? = some (str "-a") then
      match args.get? 1 with
      | some p => CommandAction.HistoryAppend p
      | none => CommandAction.Unknown (str "history")
    else CommandAction.History (args.head?.bind parseUsize)
  else if containsKey cache cmd then CommandAction.ExtCmd cmd args
  else CommandAction.Unknown cmd

/-- One pipeline stage from a stage string (`src/main.rs` lines 501–510):
strip redirections, lex, and keep `(first token, rest)` only when the
token list is nonempty. -/
def stageOf (part : List Char) : Option (List Char × List (List Char)) :=
  match parse_args (parse_redirection part).1 with
  | [] => none
  | c :: rest => some (c, rest)

/-- The parser/dispatcher `parse_command` from `src/main.rs` (lines
481–576): leading-`!` AI branch first, then the pipeline branch (which
discards each stage's redirection set), then the single-stage branch. -/
def parse_command (input : List Char) (cache : List (List Char × List Char)) :
    CommandAction × Option Redirection :=
  if (trimChars input).head? = some '!' then
    (CommandAction.Ai (splitWS (trimChars ((trimChars input).drop 1))), none)
  else if 1 < (parse_pipeline input).length then
    (CommandAction.Pipeline ((parse_pipeline input).filterMap stageOf), none)
  else
    match parse_args (parse_redirection input).1 with
    | [] => (CommandAction.Unknown [], (parse_redirection input).2)
    | cmd :: args => (dispatch cmd args cache, (parse_redirection input).2)

/-- The message the `Unknown` arm of `execute_command` prints to standard
error (`src/main.rs` lines 393–395). -/
def unknownMessage (cmd : List Char) : List Char := cmd ++ str ": command not found"

/-- The program string handed to `Command::new` by the `External` arm of
`execute_command` (`src/main.rs` line 329): the bare stored command. -/
def externalProgram : CommandAction → Option (List Char)
  | CommandAction.ExtCmd c _ => some c
  | _ => none

/-- The constant `BUILTINS` from `src/main.rs` line 21 — note it has five
entries and does not contain `cd`. -/
def BUILTINS : List (List Char) :=
  [str "echo", str "exit", str "type", str "pwd", str "history"]

/-- The function `is_builtin` from `src/main.rs` lines 948–950 — six
names, including `cd`. -/
def is_builtin (command : List Char) : Bool :=
  command = str "echo" || command = str "type" || command = str "pwd" ||
  command = str "cd" || command = str "exit" || command = str "history"

/-- Observable I/O actions of a shell (child) process, in order: draining
standard input to exhaustion, a line on standard output, a line on
standard error. -/
inductive ChildAct
  | readAllStdin
  | writeOut (s : List Char)
  | writeErr (s : List Char)
deriving DecidableEq, Repr

/-- The function `handle_type_logic` from `src/main.rs` lines 806–818,
as the list of lines it prints.  `findPath` abstracts
`find_command_in_path`, the live PATH lookup. -/
def handle_type_logic (target : List Char) (findPath : List Char → Option (List Char)) :
    List ChildAct :=
  if target = [] then []
  else if BUILTINS.contains target then [ChildAct.writeOut (target ++ str " is a shell builtin")]
  else match findPath target with
    | some p => [ChildAct.writeOut (target ++ str " is " ++ p)]
    | none => [ChildAct.writeErr (target ++ str ": not found")]

/-- The function `execute_builtin_in_child` from `src/main.rs` lines
953–992, as the ordered list of its observable I/O actions: first the
stdin-draining loop for `type` and `pwd`, then the `match` on the command
name.  `findPath` abstracts `find_command_in_path`; `cwd` abstracts
`env::current_dir()` (`none` models the error case). -/
def execute_builtin_in_child (command : List Char) (args : List (List Char))
    (findPath : List Char → Option (List Char)) (cwd : Option (List Char)) : List ChildAct :=
  (if command = str "type" ∨ command = str "pwd" then [ChildAct.readAllStdin] else []) ++
  (if command = str "echo" then [ChildAct.writeOut (joinSpace args)]
   else if command = str "type" then
     match args.head? with
     | some target =>
       if BUILTINS.contains target then [ChildAct.writeOut (target ++ str " is a shell builtin")]
       else match findPath target with
         | some p => [ChildAct.writeOut (target ++ str " is " ++ p)]
         | none => [ChildAct.writeErr (target ++ str ": not found")]
     | none => []
   else if command = str "pwd" then
     match cwd with
     | some d => [ChildAct.writeOut d]
     | none => []
   else [])

/-- A builtin stage of a multi-stage pipeline, as run by the child branch
of `execute_pipeline` (`src/main.rs` lines 1056–1059): run
`execute_builtin_in_child`, then `std::process::exit(0)`.  Result: the
I/O actions and the child exit status. -/
def pipeline_builtin_child (command : List Char) (args : List (List Char))
    (findPath : List Char → Option (List Char)) (cwd : Option (List Char)) :
    List ChildAct × Nat :=
  (execute_builtin_in_child command args findPath cwd, 0)

/-- One directory entry as observed by `get_all_executables`: basename,
full path, whether the metadata reports a regular file, and the Unix
permission bits. -/
structure DirEntry where
  name : List Char
  path : List Char
  isFile : Bool
  mode : Nat
deriving DecidableEq, Repr

/-- The check `is_executable` from `src/main.rs` lines 930–934:
a regular file with at least one of the three execute bits
(`mode & 0o111 != 0`). -/
def is_executable (e : DirEntry) : Bool :=
  e.isFile && (e.mode &&& 73) != 0

/-- Rust `HashMap::entry(k).or_insert(v)`: insert only when the key is
absent. -/
def orInsert (m : List (List Char × List Char)) (k v : List Char) :
    List (List Char × List Char) :=
  if containsKey m k then m else m ++ [(k, v)]

/-- The Path Cache builder `get_all_executables` from `src/main.rs` lines
909–927.  `dirs` is the listing of each `PATH` directory in `PATH` order;
within a directory, entries appear in the order `read_dir` yields them. -/
def get_all_executables (dirs : List (List DirEntry)) : List (List Char × List Char) :=
  dirs.foldl
    (fun m dir => dir.foldl (fun m e => if is_executable e then orInsert m e.name e.path else m) m)
    []

/-- C10: an input line whose first non-whitespace character is `!` is
returned by `parse_command` as the AI-assistant action carrying the
whitespace-split remainder as the prompt, with no redirection set — it is
never pipe-split, redirection-parsed, or dispatched any other way. -/
theorem claim_C10 (input : List Char) (cache : List (List Char × List Char))
    (h : (trimChars input).head? = some '!') :
    parse_command input cache =
      (CommandAction.Ai (splitWS (trimChars ((trimChars input).drop 1))), none) := by
  simp only [parse_command, if_pos h]

theorem claim_C10_witness :
    parse_command (str "! list txt files") [] =
      (CommandAction.Ai [str "list", str "txt", str "files"], none) :=
  (claim_C10 (str "! list txt files") [] (by decide)).trans (by decide)

/-- C2 (code bug evidence): `type cd` does not print a shell-builtin
message — `BUILTINS` omits `cd`, so `handle_type_logic` falls through to
the PATH lookup and (with no `cd` executable on PATH) prints
`cd: not found` on standard error; yet the code's own `is_builtin`
classifies `cd` as a builtin. -/
theorem claim_C2_code_divergence :
    handle_type_logic (str "cd") (fun _ => none) = [ChildAct.writeErr (str "cd: not found")]
    ∧ BUILTINS.contains (str "cd") = false
    ∧ is_builtin (str "cd") = true := by decide

/-- C1 (counterexample): for the pipeline `echo hi > f | cat` the first
stage's text parses to a redirection set sending fd 1 to `f`, yet the
pipeline action handed to the executor carries only bare
`(command, args)` stages and no redirection at all, so no stage
redirection can be applied in any child. -/
theorem claim_C1_counterexample :
    (parse_redirection (str "echo hi > f")).2 = some ⟨some (str "f"), false, none, false⟩
    ∧ parse_command (str "echo hi > f | cat") [] =
        (CommandAction.Pipeline [(str "echo", [str "hi"]), (str "cat", [])], none) := by decide

/-- C1 (amended): in a multi-stage pipeline each stage's redirection
operators are recognized and removed from the stage text, but the
resulting redirection set is discarded — the parser returns a pipeline of
bare `(command, args)` stages and an overall redirection of `none`. -/
theorem claim_C1_amended (input : List Char) (cache : List (List Char × List Char))
    (h1 : ¬(trimChars input).head? = some '!')
    (h2 : 1 < (parse_pipeline input).length) :
    parse_command input cache =
      (CommandAction.Pipeline ((parse_pipeline input).filterMap stageOf), none) := by
  simp only [parse_command, if_neg h1, if_pos h2]

theorem claim_C1_witness :
    parse_command (str "echo hi > f | cat") [(str "cat", str "/bin/cat")] =
      (CommandAction.Pipeline
        ((parse_pipeline (str "echo hi > f | cat")).filterMap stageOf), none) :=
  claim_C1_amended _ _ (by decide) (by decide)

/-- C3 (counterexample): with a Path Cache mapping `ls` to
`/usr/bin/ls`, the single-stage input `ls` is dispatched as an external
invocation carrying the bare name `ls`, and the program string handed to
`Command::new` is that bare name, not the cached absolute path. -/
theorem claim_C3_counterexample :
    parse_command (str "ls") [(str "ls", str "/usr/bin/ls")] =
      (CommandAction.ExtCmd (str "ls") [], none)
    ∧ externalProgram (CommandAction.ExtCmd (str "ls") []) = some (str "ls")
    ∧ str "ls" ≠ str "/usr/bin/ls" := by decide

/-- C3 (amended): a first token that is not a builtin name but is a key
of the Path Cache is dispatched as an external invocation referencing the
bare token (the cache is used only as a membership test), and the program
string the executor runs is that bare token. -/
theorem claim_C3_amended (cmd : List Char) (args : List (List Char))
    (cache : List (List Char × List Char))
    (h1 : cmd ∉ [str "exit", str "echo", str "pwd", str "type", str "cd", str "history"])
    (h2 : containsKey cache cmd = true) :
    dispatch cmd args cache = CommandAction.ExtCmd cmd args
    ∧ externalProgram (dispatch cmd args cache) = some cmd := by
  simp only [List.mem_cons, List.not_mem_nil, or_false, not_or] at h1
  obtain ⟨n1, n2, n3, n4, n5, n6⟩ := h1
  have hd : dispatch cmd args cache = CommandAction.ExtCmd cmd args := by
    simp only [dispatch, if_neg n1, if_neg n2, if_neg n3, if_neg n4, if_neg n5, if_neg n6,
      if_pos h2]
  exact ⟨hd, by rw [hd]; rfl⟩

theorem claim_C3_witness :
    dispatch (str "ls") [] [(str "ls", str "/usr/bin/ls")] = CommandAction.ExtCmd (str "ls") []
    ∧ externalProgram (dispatch (str "ls") [] [(str "ls", str "/usr/bin/ls")]) =
        some (str "ls") :=
  claim_C3_amended (str "ls") [] [(str "ls", str "/usr/bin/ls")] (by decide) (by decide)

/-- C4 (counterexample): tokenizing the two-character input consisting of
two single quotes — the quoted form of the empty sequence — yields no
token at all, not one empty token. -/
theorem claim_C4_counterexample :
    parse_args [squote, squote] = [] ∧ ([] : List (List Char)) ≠ [[]] := by decide

/-- C5 (counterexample): the single-stage input consisting of two single
quotes lexes to zero tokens, but instead of being silently ignored it is
classified as `Unknown` with an empty name, and the `Unknown` arm of
`execute_command` prints `: command not found` on standard error. -/
theorem claim_C5_counterexample :
    parse_command [squote, squote] [] = (CommandAction.Unknown [], none)
    ∧ unknownMessage [] = str ": command not found"
    ∧ unknownMessage [] ≠ [] := by decide

/-- C5 (amended): a stage that lexes to zero tokens contributes nothing
when it appears inside a pipeline (it is silently dropped from the stage
list); as the whole single-stage input it is classified `Unknown` with an
empty name, whose execution prints `: command not found` to standard
error. -/
theorem claim_C5_amended (input : List Char) (cache : List (List Char × List Char))
    (h1 : ¬(trimChars input).head? = some '!') :
    (∀ part, parse_args (parse_redirection part).1 = [] → stageOf part = none)
    ∧ (1 < (parse_pipeline input).length →
        parse_command input cache =
          (CommandAction.Pipeline ((parse_pipeline input).filterMap stageOf), none))
    ∧ (¬1 < (parse_pipeline input).length →
        parse_args (parse_redirection input).1 = [] →
        parse_command input cache = (CommandAction.Unknown [], (parse_redirection input).2)) := by
  refine ⟨?_, ?_, ?_⟩
  · intro part h
    simp only [stageOf, h]
  · intro h2
    simp only [parse_command, if_neg h1, if_pos h2]
  · intro h2 h3
    simp only [parse_command, if_neg h1, if_neg h2]
    rw [h3]

theorem claim_C5_witness :
    parse_command [squote, squote] [] =
      (CommandAction.Unknown [], (parse_redirection [squote, squote]).2) :=
  (claim_C5_amended [squote, squote] [] (by decide)).2.2 (by decide) (by decide)

/-- Inside an open single quote, every character other than a single
quote is copied literally into the current token without any state
change. -/
theorem parseArgsLoop_in_squote (s : List Char) (h : squote ∉ s) :
    ∀ rest args cur, parseArgsLoop (s ++ rest) args cur true false false =
      parseArgsLoop rest args (cur ++ s) true false false := by
  induction s with
  | nil => intro rest args cur; simp
  | cons c cs ih =>
    intro rest args cur
    have hc : ¬(c = squote) := fun e => h (by simp [e])
    have hcs : squote ∉ cs := fun m => h (List.mem_cons_of_mem _ m)
    rw [List.cons_append, parseArgsLoop.eq_def]
    simp only [hc, and_true, and_false, false_and, if_false, Bool.true_eq_false, not_false_iff,
      ite_false, ite_true, if_neg, reduceCtorEq]
    rw [ih hcs rest args (cur ++ [c])]
    simp

/-- C4 (amended): for every nonempty character sequence `s` containing no
single quote, tokenizing the quoted form of `s` yields exactly one token
equal to `s`; for the empty sequence the quoted form yields no token. -/
theorem claim_C4_amended (s : List Char) (h1 : s ≠ []) (h2 : squote ∉ s) :
    parse_args (squote :: (s ++ [squote])) = [s] := by
  unfold parse_args
  rw [parseArgsLoop.eq_def]
  simp only [reduceIte, reduceCtorEq, and_true, and_false, false_and, if_false, ite_false,
    Bool.false_eq_true, not_false_iff, ite_true, if_pos, and_self]
  have hq : ¬(squote = '\\') := by decide
  rw [if_neg hq]
  show parseArgsLoop (s ++ [squote]) [] [] true false false = [s]
  rw [parseArgsLoop_in_squote s h2 [squote] [] []]
  simp [parseArgsLoop.eq_def, h1, hq]

theorem claim_C4_witness :
    parse_args (squote :: (['a', ' ', 'b'] ++ [squote])) = [['a', ' ', 'b']] :=
  claim_C4_amended ['a', ' ', 'b'] (by decide) (by decide)

/-- C7: inside a multi-stage pipeline, a builtin child runs
`execute_builtin_in_child` and then exits 0; `exit`, `cd` and `history`
perform no I/O at all, `type` and `pwd` drain standard input before any
output, and `echo` never reads standard input.  All six names are routed
to this path because `is_builtin` accepts them. -/
theorem claim_C7 (args : List (List Char)) (findPath : List Char → Option (List Char))
    (cwd : Option (List Char)) :
    pipeline_builtin_child (str "exit") args findPath cwd = ([], 0)
    ∧ pipeline_builtin_child (str "cd") args findPath cwd = ([], 0)
    ∧ pipeline_builtin_child (str "history") args findPath cwd = ([], 0)
    ∧ (∃ rest, (pipeline_builtin_child (str "type") args findPath cwd).1 =
        ChildAct.readAllStdin :: rest ∧ ChildAct.readAllStdin ∉ rest)
    ∧ (∃ rest, (pipeline_builtin_child (str "pwd") args findPath cwd).1 =
        ChildAct.readAllStdin :: rest ∧ ChildAct.readAllStdin ∉ rest)
    ∧ ChildAct.readAllStdin ∉ (pipeline_builtin_child (str "echo") args findPath cwd).1
    ∧ (is_builtin (str "exit") && is_builtin (str "cd") && is_builtin (str "history") &&
        is_builtin (str "type") && is_builtin (str "pwd") && is_builtin (str "echo")) = true := by
  have e1 : ¬(str "type" = str "echo") := by decide
  have e2 : ¬(str "pwd" = str "echo") := by decide
  have e3 : ¬(str "pwd" = str "type") := by decide
  have e4 : ¬(str "echo" = str "type" ∨ str "echo" = str "pwd") := by decide
  refine ⟨rfl, rfl, rfl, ⟨?_, ?_, ?_⟩, ⟨?_, ?_, ?_⟩, ?_, by decide⟩
  · exact (execute_builtin_in_child (str "type") args findPath cwd).tail
  · rfl
  · show ChildAct.readAllStdin ∉ (execute_builtin_in_child (str "type") args findPath cwd).tail
    cases h : args.head? with
    | none => simp [execute_builtin_in_child, h, e1]
    | some t =>
      by_cases hb : t ∈ BUILTINS
      · simp [execute_builtin_in_child, h, hb, e1]
      · cases hp : findPath t <;> simp [execute_builtin_in_child, h, hb, hp, e1]
  · exact (execute_builtin_in_child (str "pwd") args findPath cwd).tail
  · rfl
  · show ChildAct.readAllStdin ∉ (execute_builtin_in_child (str "pwd") args findPath cwd).tail
    cases h : cwd <;> simp [execute_builtin_in_child, h, e2, e3]
  · show ChildAct.readAllStdin ∉ execute_builtin_in_child (str "echo") args findPath cwd
    simp [execute_builtin_in_child, e4]

/-- Loop characterization for the amended C8: `parseFilenameLoop` returns
the accumulated prefix up to the specified stop character, and the rest
of the input from that stop character on. -/
theorem parseFilenameLoop_eq (cs : List Char) :
    ∀ acc, parseFilenameLoop cs acc = (acc ++ fnamePrefix cs, fnameRest cs) := by
  induction cs with
  | nil => intro acc; simp [parseFilenameLoop, fnamePrefix, fnameRest]
  | cons c cs ih =>
    intro acc
    by_cases h1 : c = ' ' ∨ c = '>'
    · have hs : c = ' ' ∨ c = '>' ∨ ((c = '1' ∨ c = '2') ∧ cs.head? = some '>') := by
        rcases h1 with h | h
        · exact Or.inl h
        · exact Or.inr (Or.inl h)
      rw [parseFilenameLoop, fnamePrefix, fnameRest, if_pos h1, if_pos hs, if_pos hs]
      simp
    · by_cases h2 : (c = '1' ∨ c = '2') ∧ cs.head? = some '>'
      · have hs : c = ' ' ∨ c = '>' ∨ ((c = '1' ∨ c = '2') ∧ cs.head? = some '>') :=
          Or.inr (Or.inr h2)
        rw [parseFilenameLoop, fnamePrefix, fnameRest, if_neg h1, if_pos h2, if_pos hs,
          if_pos hs]
        simp
      · have hs : ¬(c = ' ' ∨ c = '>' ∨ ((c = '1' ∨ c = '2') ∧ cs.head? = some '>')) := by
          rintro (h | h | h)
          · exact h1 (Or.inl h)
          · exact h1 (Or.inr h)
          · exact h2 h
        rw [parseFilenameLoop, fnamePrefix, fnameRest, if_neg h1, if_neg h2, if_neg hs,
          if_neg hs]
        rw [ih (acc ++ [c])]
        simp

/-- C8 (amended): the filename reader consumes exactly the prefix of its
input up to the first space or redirection-operator start — with no quote
tracking, so quote characters are kept in the filename but do not protect
spaces — and the filename is that prefix, trimmed. -/
theorem claim_C8_amended (cs : List Char) :
    parse_filename cs = (trimChars (fnamePrefix cs), fnameRest cs) := by
  unfold parse_filename
  rw [parseFilenameLoop_eq cs []]
  simp

/-- Membership in the cache coincides with a successful lookup. -/
theorem containsKey_eq_isSome (m : List (List Char × List Char)) (k : List Char) :
    containsKey m k = (lookupKey m k).isSome := by
  induction m with
  | nil => rfl
  | cons p m ih =>
    by_cases h : p.1 = k
    · simp [containsKey, lookupKey, List.find?_cons, h]
    · simp only [containsKey, lookupKey, List.any_cons, List.find?_cons, h, decide_False,
        Bool.false_or, if_neg]
      simpa [containsKey, lookupKey] using ih

/-- Lookup in a cons cell. -/
theorem lookupKey_cons (p : List Char × List Char) (m : List (List Char × List Char))
    (k : List Char) :
    lookupKey (p :: m) k = if p.1 = k then some p.2 else lookupKey m k := by
  by_cases h : p.1 = k <;> simp [lookupKey, List.find?_cons, h]

/-- Lookup distributes over append, preferring the left map. -/
theorem lookupKey_append (m₁ m₂ : List (List Char × List Char)) (k : List Char) :
    lookupKey (m₁ ++ m₂) k =
      match lookupKey m₁ k with
      | some v => some v
      | none => lookupKey m₂ k := by
  induction m₁ with
  | nil => simp [lookupKey]
  | cons p m ih =>
    by_cases h : p.1 = k
    · simp [List.cons_append, lookupKey_cons, h]
    · simp [List.cons_append, lookupKey_cons, h, ih]

/-- Lookup after `or_insert`: an existing binding always wins. -/
theorem lookupKey_orInsert (m : List (List Char × List Char)) (k v q : List Char) :
    lookupKey (orInsert m k v) q =
      match lookupKey m q with
      | some w => some w
      | none => if k = q then some v else none := by
  unfold orInsert
  by_cases hc : containsKey m k
  · rw [if_pos hc]
    cases hq : lookupKey m q with
    | some w => simp [hq]
    | none =>
      simp only [hq]
      by_cases hkq : k = q
      · subst hkq
        have h2 := containsKey_eq_isSome m k
        rw [hq] at h2
        rw [h2] at hc
        exact absurd hc (by simp)
      · simp [hkq]
  · rw [if_neg hc, lookupKey_append]
    cases hq : lookupKey m q with
    | some w => simp [hq]
    | none => simp [hq, lookupKey_cons, lookupKey]

/-- Invariant of the `get_all_executables` accumulation over a flat list
of directory entries: an earlier binding always wins, and new bindings
come from the qualifying entries in scan order. -/
theorem gae_entries (entries : List DirEntry) :
    ∀ m q,
      lookupKey
        (entries.foldl (fun m e => if is_executable e then orInsert m e.name e.path else m) m) q =
      match lookupKey m q with
      | some w => some w
      | none =>
        ((entries.filter (fun e => is_executable e)).find? (fun e => e.name = q)).map
          (fun e => e.path) := by
  induction entries with
  | nil =>
    intro m q
    cases hq : lookupKey m q <;> simp [hq]
  | cons e es ih =>
    intro m q
    rw [List.foldl_cons]
    by_cases he : is_executable e
    · rw [if_pos he, ih (orInsert m e.name e.path) q, lookupKey_orInsert]
      cases hq : lookupKey m q with
      | some w => simp [hq, he]
      | none =>
        by_cases hnq : e.name = q
        · simp [hq, hnq, he, List.find?_cons]
        · simp [hq, hnq, he, List.find?_cons]
    · rw [if_neg he, ih m q]
      cases hq : lookupKey m q with
      | some w => simp [hq]
      | none => simp [hq, he]

/-- C9: the Path Cache lookup for a basename returns the path of the
first qualifying occurrence — a regular file with at least one execute
bit — when scanning the `PATH` directory listings in order; later
duplicates are ignored, and a basename is present exactly when some
qualifying entry carries it. -/
theorem claim_C9 (dirs : List (List DirEntry)) (q : List Char) :
    lookupKey (get_all_executables dirs) q =
      ((dirs.flatten.filter (fun e => is_executable e)).find? (fun e => e.name = q)).map
        (fun e => e.path)
    ∧ (containsKey (get_all_executables dirs) q = true ↔
        ∃ e ∈ dirs.flatten, is_executable e = true ∧ e.name = q) := by
  have h1 : get_all_executables dirs =
      dirs.flatten.foldl (fun m e => if is_executable e then orInsert m e.name e.path else m)
        [] := by
    rw [get_all_executables, List.foldl_flatten]
  have h2 : lookupKey (get_all_executables dirs) q =
      ((dirs.flatten.filter (fun e => is_executable e)).find? (fun e => e.name = q)).map
        (fun e => e.path) := by
    rw [h1, gae_entries]
    simp [lookupKey]
  refine ⟨h2, ?_⟩
  rw [containsKey_eq_isSome, h2]
  simp only [Option.isSome_map', List.find?_isSome, List.mem_filter, decide_eq_true_eq]
  constructor
  · rintro ⟨e, ⟨he1, he2⟩, he3⟩
    exact ⟨e, he1, he2, he3⟩
  · rintro ⟨e, he1, he2, he3⟩
    exact ⟨e, ⟨he1, he2⟩, he3⟩

/-- Dropping a prefix never lengthens a list. -/
theorem length_dropWhile_le {α : Type} (p : α → Bool) (l : List α) :
    (l.dropWhile p).length ≤ l.length := by
  induction l with
  | nil => simp
  | cons a l ih =>
    rw [List.dropWhile_cons]
    split
    · exact ih.trans (by simp)
    · simp

/-- The filename loop leaves no more characters than it was given. -/
theorem parseFilenameLoop_rest_le (cs : List Char) :
    ∀ acc, (parseFilenameLoop cs acc).2.length ≤ cs.length := by
  induction cs with
  | nil => intro acc; simp [parseFilenameLoop]
  | cons c cs ih =>
    intro acc
    rw [parseFilenameLoop]
    split_ifs with h1 h2
    · simp
    · simp
    · exact (ih (acc ++ [c])).trans (by simp)

/-- The append-mode check leaves no more characters than it was given. -/
theorem appendCheck_rest_le (cs : List Char) : (appendCheck cs).2.length ≤ cs.length := by
  unfold appendCheck
  split_ifs with h
  · cases cs <;> simp
  · simp

/-- An operator's filename consumption leaves no more characters than it
was given. -/
theorem opTail_rest_le (cs : List Char) : (opTail cs).2.length ≤ cs.length := by
  unfold opTail parse_filename
  exact (parseFilenameLoop_rest_le _ []).trans
    ((length_dropWhile_le _ _).trans (appendCheck_rest_le cs))

set_option maxHeartbeats 2000000 in
/-- Fuel irrelevance: any fuel at least the input length gives the same
scanner result, so the choice of `input.length` in `parse_redirection` is
immaterial. -/
theorem parseRedirLoopF_fuel (f : Nat) :
    ∀ g cs cmd inS inD esc σ, cs.length ≤ f → cs.length ≤ g →
      parseRedirLoopF f cs cmd inS inD esc σ = parseRedirLoopF g cs cmd inS inD esc σ := by
  induction f with
  | zero =>
    intro g cs cmd inS inD esc σ hf hg
    have hnil : cs = [] := List.length_eq_zero.mp (Nat.le_zero.mp hf)
    subst hnil
    cases g <;> rfl
  | succ n ih =>
    intro g cs cmd inS inD esc σ hf hg
    cases cs with
    | nil => cases g <;> rfl
    | cons c cs =>
      cases g with
      | zero => exact absurd hg (by simp)
      | succ m =>
        have hn : cs.length ≤ n := by simpa using hf
        have hm : cs.length ≤ m := by simpa using hg
        have hopn : (opTail cs).2.length ≤ n := (opTail_rest_le cs).trans hn
        have hopm : (opTail cs).2.length ≤ m := (opTail_rest_le cs).trans hm
        have htn : (opTail cs.tail).2.length ≤ n :=
          ((opTail_rest_le cs.tail).trans (by cases cs <;> simp)).trans hn
        have htm : (opTail cs.tail).2.length ≤ m :=
          ((opTail_rest_le cs.tail).trans (by cases cs <;> simp)).trans hm
        rw [parseRedirLoopF, parseRedirLoopF]
        split_ifs with h1 h2 h3 h4 h5 h6 h7 h8 h9 h10
        · exact ih m cs _ _ _ _ _ hn hm
        · exact ih m cs _ _ _ _ _ hn hm
        · exact ih m cs _ _ _ _ _ hn hm
        · exact ih m cs _ _ _ _ _ hn hm
        · exact ih m (opTail cs).2 _ _ _ _ _ hopn hopm
        · exact ih m (opTail cs).2 _ _ _ _ _ hopn hopm
        · exact ih m (opTail cs.tail).2 _ _ _ _ _ htn htm
        · exact ih m (opTail cs.tail).2 _ _ _ _ _ htn htm
        · exact ih m (opTail cs.tail).2 _ _ _ _ _ htn htm
        · exact ih m (opTail cs.tail).2 _ _ _ _ _ htn htm
        · exact ih m cs _ _ _ _ _ hn hm

theorem applyOps_nil (σ : Redirection) : applyOps σ [] = σ := rfl

theorem applyOps_cons (σ : Redirection) (o : RedirOp) (ops : List RedirOp) :
    applyOps σ (o :: ops) = applyOps (stepOp σ o) ops := rfl

/-- Applying the operator occurrences in order from the empty slot record
yields, for each fd, exactly the last operator with a nonempty
filename. -/
theorem applyOps_lastWins (ops : List RedirOp) :
    applyOps ⟨none, false, none, false⟩ ops =
      ⟨(lastWins false ops).1, (lastWins false ops).2,
        (lastWins true ops).1, (lastWins true ops).2⟩ := by
  induction ops using List.reverseRecOn with
  | nil => rfl
  | append_singleton l o ih =>
    show ((l ++ [o]).foldl stepOp ⟨none, false, none, false⟩) = _
    rw [List.foldl_append]
    simp only [List.foldl_cons, List.foldl_nil]
    have hl : l.foldl stepOp ⟨none, false, none, false⟩ =
        ⟨(lastWins false l).1, (lastWins false l).2,
          (lastWins true l).1, (lastWins true l).2⟩ := ih
    rw [hl]
    by_cases hf : o.file = []
    · simp [stepOp, hf, lastWins, List.filter_append]
    · by_cases hfd : o.fd2
      · simp [stepOp, hf, hfd, lastWins, List.filter_append]
      · simp [stepOp, hf, hfd, lastWins, List.filter_append]

/-- Correspondence between the faithful scanner and the operator-sequence
view: the final slot record equals the initial record with the operator
occurrences applied in order. -/
theorem redir_slots_eq (fuel : Nat) :
    ∀ cs cmd inS inD esc σ,
      (parseRedirLoopF fuel cs cmd inS inD esc σ).2 =
        applyOps σ (redirOpsF fuel cs inS inD esc) := by
  induction fuel with
  | zero =>
    intro cs cmd inS inD esc σ
    cases cs <;> rfl
  | succ n ih =>
    intro cs cmd inS inD esc σ
    cases cs with
    | nil => rfl
    | cons c cs =>
      rw [parseRedirLoopF, redirOpsF]
      split_ifs with h1 h2 h3 h4 h5 h6 h7 h8 h9 h10
      · exact ih _ _ _ _ _ _
      · exact ih _ _ _ _ _ _
      · exact ih _ _ _ _ _ _
      · exact ih _ _ _ _ _ _
      · rw [applyOps_cons]
        have hs : stepOp σ ⟨false, (appendCheck cs).1, (opTail cs).1⟩ = σ := by
          simp [stepOp, h6]
        rw [hs]
        exact ih _ _ _ _ _ _
      · rw [applyOps_cons]
        have hs : stepOp σ ⟨false, (appendCheck cs).1, (opTail cs).1⟩ =
            ⟨some (opTail cs).1, (appendCheck cs).1, σ.stderr_file, σ.stderr_append⟩ := by
          simp [stepOp, h6]
        rw [hs]
        exact ih _ _ _ _ _ _
      · rw [applyOps_cons]
        have hs : stepOp σ ⟨false, (appendCheck cs.tail).1, (opTail cs.tail).1⟩ = σ := by
          simp [stepOp, h8]
        rw [hs]
        exact ih _ _ _ _ _ _
      · rw [applyOps_cons]
        have hs : stepOp σ ⟨false, (appendCheck cs.tail).1, (opTail cs.tail).1⟩ =
            ⟨some (opTail cs.tail).1, (appendCheck cs.tail).1, σ.stderr_file,
              σ.stderr_append⟩ := by
          simp [stepOp, h8]
        rw [hs]
        exact ih _ _ _ _ _ _
      · rw [applyOps_cons]
        have hs : stepOp σ ⟨true, (appendCheck cs.tail).1, (opTail cs.tail).1⟩ = σ := by
          simp [stepOp, h10]
        rw [hs]
        exact ih _ _ _ _ _ _
      · rw [applyOps_cons]
        have hs : stepOp σ ⟨true, (appendCheck cs.tail).1, (opTail cs.tail).1⟩ =
            ⟨σ.stdout_file, σ.stdout_append, some (opTail cs.tail).1,
              (appendCheck cs.tail).1⟩ := by
          simp [stepOp, h10]
        rw [hs]
        exact ih _ _ _ _ _ _
      · exact ih _ _ _ _ _ _

/-- C6: for every stage string, the Redirection Parser's slot for each fd
holds the target path and the append flag of the last redirection
operator for that fd that has a nonempty filename; operators with empty
filenames leave the slots untouched.  The redirection set is `none`
exactly when neither fd received a nonempty filename. -/
theorem claim_C6 (input : List Char) :
    (parse_redirection input).2 =
      (if (lastWins false (redirOps input)).1.isSome ∨
          (lastWins true (redirOps input)).1.isSome
        then some ⟨(lastWins false (redirOps input)).1, (lastWins false (redirOps input)).2,
          (lastWins true (redirOps input)).1, (lastWins true (redirOps input)).2⟩
        else none) := by
  have h := redir_slots_eq input.length input [] false false false ⟨none, false, none, false⟩
  rw [applyOps_lastWins] at h
  simp only [parse_redirection, redirOps] at h ⊢
  rw [h]

/-- C8 (counterexample): for the stage `echo hi > 'a b'` the parsed
stdout filename is `'a` — the quoted filename containing a space is not
read in full; the scanner stops at the space inside the quotes. -/
theorem claim_C8_counterexample :
    parse_redirection (str "echo hi > " ++ [squote, 'a', ' ', 'b', squote]) =
      (str "echo hi  b" ++ [squote], some ⟨some [squote, 'a'], false, none, false⟩)
    ∧ [squote, 'a'] ≠ [squote, 'a', ' ', 'b', squote] := by decide
